import Mathlib

/-!
Verification development for the Mongo storage adapter
(`server/mongo/src/storage.ts`): a shallow embedding of the query
translator, the mutation translator and the result shaper, together with
theorems settling the specification claims about them.

JavaScript objects are embedded as association lists in insertion order
(JS objects keep insertion order and have unique keys); JS values are
embedded as the inductive `Value`, with `Value.undefined` standing for the
JavaScript `undefined`.  A handler that would raise a runtime TypeError is
embedded as a function returning `none`.
-/

namespace MongoStorage

/-- Embedding of a JavaScript/BSON value: string, number, boolean, null,
`undefined`, array, or object (association list in insertion order). -/
inductive Value where
  | str (s : String)
  | num (n : Int)
  | bool (b : Bool)
  | null
  | undefined
  | arr (elems : List Value)
  | obj (fields : List (String × Value))

/-- A stored document row: the top-level field map of a document. -/
abbrev DocV := List (String × Value)

/-- First binding of a key in an association list
(JS property read on an object, whose keys are unique). -/
def getKey {α : Type} : List (String × α) → String → Option α
  | [], _ => none
  | p :: rest, key => if p.1 = key then some p.2 else getKey rest key

/-- Whether a key is present. -/
def hasKey {α : Type} (l : List (String × α)) (key : String) : Bool :=
  (getKey l key).isSome

/-- JS property assignment `o[key] = v`: overwrite in place when the key is
present (JS keeps the original position), append otherwise. -/
def setKey {α : Type} (l : List (String × α)) (key : String) (v : α) : List (String × α) :=
  if hasKey l key then l.map (fun p => if p.1 = key then (p.1, v) else p) else l ++ [(key, v)]

/-- JS property read `o[key]` as a total operation: `undefined` when the key
is absent or the value is not an object. -/
def getProp (v : Value) (key : String) : Value :=
  match v with
  | .obj kvs => match getKey kvs key with
      | some w => w
      | none => .undefined
  | _ => .undefined

/-- The expression `Object.keys(o)[0]` for an object given by its field list. -/
def firstKey {α : Type} : List (String × α) → Option String
  | [] => none
  | p :: _ => some p.1

/-- The expression `Object.keys(v)[0]` for an arbitrary value; non-objects
contribute no relevant enumerable keys here. -/
def firstKeyV : Value → Option String
  | .obj kvs => firstKey kvs
  | _ => none

/-! ## Character-level string utilities

`splitChar` models the JavaScript `String.prototype.split` with a
single-character separator, on the character list of a string. -/

/-- JS `s.split(sep)` for a one-character separator, over character lists. -/
def splitChar (sep : Char) : List Char → List (List Char)
  | [] => [[]]
  | c :: cs =>
      if c = sep then [] :: splitChar sep cs
      else match splitChar sep cs with
        | [] => [[c]]
        | h :: t => (c :: h) :: t

/-- A dotted field path split into its components, as Mongo resolves dotted
keys in filters and `$set` specifications. -/
def pathOf (k : String) : List String :=
  (splitChar '.' k.data).map (fun l => String.mk l)

/-- Whether a string starts with `'$'` (JS `key.startsWith('$')`). -/
def startsDollar (s : String) : Bool :=
  match s.data with
  | [] => false
  | c :: _ => c = '$'

/-- List-level prefix test used by the regex-fragment matcher. -/
def listStarts : List Char → List Char → Bool
  | [], _ => true
  | _ :: _, [] => false
  | a :: as, b :: bs => a = b && listStarts as bs

/-- Whether `s` ends with `seg`. -/
def endsList (seg s : List Char) : Bool :=
  listStarts seg.reverse s.reverse

/-- Lower-casing of a character list, modelling the store's
case-insensitive (`i` option) comparison. -/
def lowerList (l : List Char) : List Char :=
  l.map Char.toLower

/-- Matcher for the regex fragment `.*seg₁.*seg₂…segₙ$` (each literal segment
preceded by a wildcard gap, end anchored), used to give semantics to the
regexes the translator emits.  Models the store's regex engine on exactly
the fragment shape produced from a `$like` pattern. -/
def matchGap : List (List Char) → List Char → Bool
  | [], _ => true
  | [seg], s => endsList seg s
  | seg :: seg' :: rest, s =>
      (List.range (s.length + 1)).any (fun i =>
        listStarts seg (s.drop i) && matchGap (seg' :: rest) ((s.drop i).drop seg.length))

/-- Matcher for the full anchored regex `^seg₀.*seg₁…segₙ$` built from the
segments of a `$like` pattern. -/
def reMatch : List (List Char) → List Char → Bool
  | [], s => s.isEmpty
  | [seg], s => s = seg
  | seg :: seg' :: rest, s => listStarts seg s && matchGap (seg' :: rest) (s.drop seg.length)

/-- Whether the case-insensitive anchored regex the translator builds from
`pattern` accepts the stored string `s` (SQL-LIKE semantics of `%`). -/
def likeAccepts (pattern s : String) : Bool :=
  reMatch ((splitChar '%' pattern.data).map lowerList) (lowerList s.data)

/-- The regex source string built in `translateQuery` for a `$like` value:
`'^' + pattern.split('%').join('.*') + '$'`. -/
def likeRegexStr (pattern : String) : String :=
  "^" ++ String.intercalate ".*" ((splitChar '%' pattern.data).map (fun l => String.mk l)) ++ "$"

/-! ## External collaborators -/

/-- The Domain Router collaborator (`Hierarchy` in the source): class-to-domain
routing, base storage class and descendant resolution.  Consumed, never
implemented, by the adapter; theorems quantify over it. -/
structure Hierarchy where
  getBaseClass : String → String
  getDescendants : String → List String
  getDomain : String → String

/-- The reserved model domain constant (`DOMAIN_MODEL` from the core package);
only its identity matters, never its spelling. -/
def DOMAIN_MODEL : String := "model"

/-! ## Query Translator (`MongoAdapterBase.translateQuery`) -/

/-- Per-field rewriting in `translateQuery`: a non-null object value whose
first key (`Object.keys(value)[0]`) is `$like` is rewritten to an anchored
case-insensitive regex; everything else passes through.  A non-string
`$like` payload makes the source crash on `pattern.split` (`none`). -/
def translateField (v : Value) : Option Value :=
  match v with
  | .obj kvs =>
      match firstKey kvs with
      | some k =>
          if k = "$like" then
            match getKey kvs "$like" with
            | some (.str pat) =>
                some (.obj [("$regex", .str (likeRegexStr pat)), ("$options", .str "i")])
            | _ => none
          else some (.obj kvs)
      | none => some (.obj kvs)
  | w => some w

/-- The `for (const key in query)` loop of `translateQuery`: rewrite every
field value, keeping keys and order. -/
def translateFields : List (String × Value) → Option (List (String × Value))
  | [] => some []
  | p :: rest =>
      match translateField p.2 with
      | some v' =>
          match translateFields rest with
          | some r => some ((p.1, v') :: r)
          | none => none
      | none => none

/-- The test `translated._class?.$in === undefined` (negated): true exactly
when the translated class field is an object carrying an `$in` key. -/
def hasIn : Option Value → Bool
  | some (.obj kvs) => hasKey kvs "$in"
  | _ => false

/-- The injected polymorphic class constraint `{ _class: { $in: classes } }`. -/
def classesFilter (classes : List String) : Value :=
  .obj [("$in", .arr (classes.map .str))]

/-- The class-constraint step of `translateQuery`: unless the translated
`_class` field already carries an `$in` key, assign
`translated._class = { $in: descendants(baseClass) }`. -/
def classStep (h : Hierarchy) (clazz : String) (translated : List (String × Value)) :
    List (String × Value) :=
  if hasIn (getKey translated "_class") then translated
  else setKey translated "_class" (classesFilter (h.getDescendants (h.getBaseClass clazz)))

/-- The facet step of `translateQuery`: when the base storage class differs
from the requested class (a mixin), assign `translated[clazz] = { $exists: true }`. -/
def mixinStep (h : Hierarchy) (clazz : String) (t1 : List (String × Value)) :
    List (String × Value) :=
  if h.getBaseClass clazz = clazz then t1
  else setKey t1 clazz (.obj [("$exists", .bool true)])

/-- `MongoAdapterBase.translateQuery`: rewrite each field, then inject the
descendant-set class constraint unless the translated `_class` field already
has an `$in` key, and require facet-key existence when the requested class
is a mixin (its base storage class differs from itself). -/
def translateQuery (h : Hierarchy) (clazz : String) (query : List (String × Value)) :
    Option (List (String × Value)) :=
  match translateFields query with
  | none => none
  | some translated => some (mixinStep h clazz (classStep h clazz translated))

/-! ## Aggregation pipeline and Result Shaper (`MongoAdapterBase.lookup`) -/

inductive SortingOrder where
  | ascending
  | descending
deriving DecidableEq

/-- One `$lookup` pipeline stage (the `step` object built in `lookup`). -/
structure LookupStage where
  fromDomain : String
  localField : String
  foreignField : String
  asField : String
deriving DecidableEq

/-- A pipeline stage of the aggregation built by `lookup`. -/
inductive PipeStage where
  | matchS (filter : List (String × Value))
  | lookupS (st : LookupStage)
  | sortS (sort : List (String × Int))
  | limitS (n : Nat)

/-- Find options: relational lookups, sort and limit. -/
structure FindOptions where
  lookup : Option (List (String × String))
  sort : Option (List (String × SortingOrder))
  limit : Option Nat

/-- Sort-key translation in `lookup`: a `$lookup.`-prefixed key is stripped
of the prefix and its first path component is retargeted to the
`_lookup`-suffixed array field. -/
def translateSortKey (k : String) : String :=
  if listStarts "$lookup.".data k.data then
    let k' : String := String.mk (k.data.drop 8)
    match (splitChar '.' k'.data).map (fun l => String.mk l) with
    | [] => k'
    | h :: t => String.intercalate "." ((h ++ "_lookup") :: t)
  else k

/-- The `$lookup` stages issued for the lookup entries: one join stage per
entry whose target domain is not the reserved model domain, in entry order. -/
def lookupStages (h : Hierarchy) : List (String × String) → List LookupStage
  | [] => []
  | p :: rest =>
      if h.getDomain p.2 = DOMAIN_MODEL then lookupStages h rest
      else { fromDomain := h.getDomain p.2, localField := p.1, foreignField := "_id",
             asField := p.1 ++ "_lookup" } :: lookupStages h rest

/-- The aggregation pipeline built by `lookup`: match stage, join stages,
then optional sort and limit stages. -/
def buildPipeline (h : Hierarchy) (clazz : String) (query : List (String × Value))
    (options : FindOptions) : Option (List PipeStage) :=
  match translateQuery h clazz query with
  | none => none
  | some fil =>
      let base := PipeStage.matchS fil ::
        (lookupStages h (options.lookup.getD [])).map PipeStage.lookupS
      let withSort :=
        match options.sort with
        | none => base
        | some s => base ++ [PipeStage.sortS (s.map (fun p =>
            (translateSortKey p.1, if p.2 = SortingOrder.ascending then (1 : Int) else -1)))]
      some (match options.limit with
        | none => withSort
        | some n => withSort ++ [PipeStage.limitS n])

/-- The expression `arr[0]`: first element of a joined array, `undefined`
when the array is empty. -/
def firstElem : Value → Value
  | .arr (x :: _) => x
  | _ => .undefined

/-- The `$lookup` sub-map attached to each row by the result shaper: for a
non-model target, the first element of the joined array; for a model-domain
target, resolution through the model cache (`modelDb.getObject`), which is
an external collaborator passed as a function. -/
def lookupEntries (h : Hierarchy) (modelDb : Value → Value)
    (lookups : List (String × String)) (row : DocV) : List (String × Value) :=
  lookups.map (fun p =>
    (p.1, if h.getDomain p.2 = DOMAIN_MODEL then modelDb (getProp (.obj row) p.1)
          else firstElem (getProp (.obj row) (p.1 ++ "_lookup"))))

/-- Result shaping of one row: attach the `$lookup` sub-map. -/
def shapeRow (h : Hierarchy) (modelDb : Value → Value)
    (lookups : List (String × String)) (row : DocV) : DocV :=
  setKey row "$lookup" (.obj (lookupEntries h modelDb lookups row))

/-! ## Transactions and native write operations -/

structure TxPutBag where
  objectClass : String
  objectId : String
  bag : String
  key : String
  value : Value

structure TxRemoveDoc where
  objectClass : String
  objectId : String

structure TxUpdateDoc where
  objectClass : String
  objectId : String
  modifiedBy : String
  modifiedOn : Int
  operations : List (String × Value)
  retrieve : Bool

structure TxMixin where
  objectClass : String
  objectId : String
  mixin : String
  modifiedBy : String
  modifiedOn : Int
  attributes : List (String × Value)

/-- Modelled from the spec: `isOperator` is imported from the platform core
package, whose source is not present here.  Per the spec, an operator map is
an update payload whose top-level keys are operator tags distinguished by
the reserved `$` prefix; detection is by that key-prefix convention, so a
payload is an operator map when it is non-empty and every top-level key
starts with `$`. -/
def isOperator (attrs : List (String × Value)) : Bool :=
  !attrs.isEmpty && attrs.all (fun p => startsDollar p.1)

/-- A native write operation issued to the store.  Every filter in this
adapter is `{ _id: tx.objectId }`, so the filter is carried as the id. -/
inductive WriteOp where
  | updateOne (filterId : String) (update : List (String × Value))
  | deleteOne (filterId : String)
  | findOneAndUpdateOp (filterId : String) (update : List (String × Value)) (returnAfter : Bool)

/-- What one handler submits to the store: the target domain (collection),
whether it goes through `bulkWrite`, and the ordered operations. -/
structure Submission where
  domain : String
  bulk : Bool
  ops : List WriteOp

/-- The result a handler returns: `{}`, `{ object: doc-or-null }`, or the
opaque native update/bulk result passed through. -/
inductive TxResult where
  | empty
  | withObject (doc : Option DocV)
  | updateRes
  | bulkRes

/-- The `$set` payload `{ modifiedBy: tx.modifiedBy, modifiedOn: tx.modifiedOn }`. -/
def modifiedSet (mb : String) (mo : Int) : Value :=
  .obj [("modifiedBy", .str mb), ("modifiedOn", .num mo)]

/-- The two ordered operations of the `$move` emulation in `txUpdateDoc`:
`arr = Object.keys(keyval)[0]` and `desc = keyval[arr]`, then the `$pull` of
`desc.$value` followed by the `$set` of `modifiedBy`/`modifiedOn` plus the
positioned `$push`.  A payload without a first key makes the source crash
on `desc.$value` (`none`). -/
def moveOps (id mb : String) (mo : Int) (keyval : Value) : Option (List WriteOp) :=
  match keyval with
  | .obj (p :: prest) =>
      some [ WriteOp.updateOne id
               [("$pull", Value.obj [(p.1, getProp (getProp (Value.obj (p :: prest)) p.1) "$value")])],
             WriteOp.updateOne id
               [("$set", modifiedSet mb mo),
                ("$push", Value.obj [(p.1, Value.obj
                  [("$each", Value.arr [getProp (getProp (Value.obj (p :: prest)) p.1) "$value"]),
                   ("$position", getProp (getProp (Value.obj (p :: prest)) p.1) "$position")])])] ]
  | _ => none

/-- The `$move` emulation in `txMixin`: the source namespaces the array name
first, `arr = tx.mixin + '.' + Object.keys(keyval)[0]`, and then reads
`keyval[arr]` — with that namespaced name — so `desc` is `undefined` and
`desc.$value` raises a TypeError (`none`) unless the payload itself carries
the namespaced key. -/
def mixinMoveOps (mixin id mb : String) (mo : Int) (keyval : Value) : Option (List WriteOp) :=
  match keyval with
  | .obj (p :: prest) =>
      match getKey (p :: prest) (mixin ++ "." ++ p.1) with
      | some desc =>
          some [ WriteOp.updateOne id
                   [("$pull", Value.obj [(mixin ++ "." ++ p.1, getProp desc "$value")])],
                 WriteOp.updateOne id
                   [("$set", modifiedSet mb mo),
                    ("$push", Value.obj [(mixin ++ "." ++ p.1, Value.obj
                      [("$each", Value.arr [getProp desc "$value"]),
                       ("$position", getProp desc "$position")])])] ]
      | none => none
  | _ => none

/-- The update document carried by a write operation, when it has one. -/
def updateDocOf : WriteOp → Option (List (String × Value))
  | .updateOne _ u => some u
  | .findOneAndUpdateOp _ u _ => some u
  | .deleteOne _ => none

/-- A write operation whose `$set` clause binds `modifiedBy` and
`modifiedOn` to the transaction's values. -/
def setsModified (op : WriteOp) (mb : String) (mo : Int) : Prop :=
  ∃ u kvs, updateDocOf op = some u ∧ getKey u "$set" = some (Value.obj kvs) ∧
    getKey kvs "modifiedBy" = some (Value.str mb) ∧
    getKey kvs "modifiedOn" = some (Value.num mo)

/-- Every submission a handler issues contains a write setting
`modifiedBy`/`modifiedOn` (vacuous when the handler crashes). -/
def submissionSetsModified (res : Option (Submission × TxResult)) (mb : String) (mo : Int) :
    Prop :=
  match res with
  | none => True
  | some (sub, _) => ∃ op ∈ sub.ops, setsModified op mb mo

mutual
/-- The entry loop of `MongoAdapter.translateMixinAttrs`: a `$`-prefixed key
keeps its name and recurses into its payload; a plain key is namespaced to
`<mixin>.<key>`. -/
def tmaList (mixin : String) : List (String × Value) → List (String × Value)
  | [] => []
  | (k, v) :: rest =>
      (if startsDollar k then (k, Value.obj (tmaVal mixin v))
       else (mixin ++ "." ++ k, v)) :: tmaList mixin rest

/-- The recursive call `translateMixinAttrs(mixin, v)` on a nested operator
payload: `Object.entries` of a non-object is empty, so a non-object payload
(like an empty attribute set) yields the placeholder marker field. -/
def tmaVal (mixin : String) : Value → List (String × Value)
  | .obj kvs =>
      if kvs.isEmpty then [(mixin ++ "." ++ "__mixin", .str "true")]
      else tmaList mixin kvs
  | _ => [(mixin ++ "." ++ "__mixin", .str "true")]
end

/-- `MongoAdapter.translateMixinAttrs` on the top-level attribute map: when
no attribute is written, the placeholder marker field `<mixin>.__mixin` is
written so the embedded mixin object is materialized. -/
def translateMixinAttrs (mixin : String) (attributes : List (String × Value)) :
    List (String × Value) :=
  if attributes.isEmpty then [(mixin ++ "." ++ "__mixin", .str "true")]
  else tmaList mixin attributes

/-! ## Store semantics used by the handlers (modelled Mongo collaborator) -/

/-- Mongo equality match of the string filter `{ _id: id }` against a stored
document (a stored non-string `_id` never equals the string id). -/
def idMatches (d : DocV) (id : String) : Bool :=
  match getKey d "_id" with
  | some (.str s) => s = id
  | _ => false

/-- First document of the collection matching the id, as Mongo's
single-document operations select it. -/
def findDoc : List DocV → String → Option DocV
  | [], _ => none
  | d :: rest, id => if idMatches d id then some d else findDoc rest id

/-- Models `Collection.deleteOne({ _id: id })`: removes the first matching
document; removing nothing is not an error. -/
def deleteOneSem : List DocV → String → List DocV
  | [], _ => []
  | d :: rest, id => if idMatches d id then rest else d :: deleteOneSem rest id

/-- Replaces the first matching document. -/
def replaceDoc : List DocV → String → DocV → List DocV
  | [], _, _ => []
  | d :: rest, id, d' => if idMatches d id then d' :: rest else d :: replaceDoc rest id d'

/-- Models `Collection.findOneAndUpdate(filter, update, { returnDocument })`:
the update semantics of the store is the external parameter `applyU`; with
`returnDocument: 'after'` the returned `value` is the post-update document,
and a missing match yields a `null` value, not an error. -/
def findOneAndUpdateSem (applyU : List (String × Value) → DocV → DocV)
    (coll : List DocV) (id : String) (upd : List (String × Value)) (returnAfter : Bool) :
    Option DocV × List DocV :=
  match findDoc coll id with
  | none => (none, coll)
  | some d =>
      let d' := applyU upd d
      (some (if returnAfter then d' else d), replaceDoc coll id d')

/-- Number of documents matching an id (the `_id` unique index makes this at
most one in a real collection). -/
def countMatches : List DocV → String → Nat
  | [], _ => 0
  | d :: rest, id => (if idMatches d id then 1 else 0) + countMatches rest id

/-! ## Mutation Translator (`MongoAdapter.tx*` handlers) -/

/-- `MongoAdapter.txPutBag`: a single `$set` of the `<bag>.<key>` field. -/
def txPutBagRun (h : Hierarchy) (tx : TxPutBag) : Submission × TxResult :=
  ({ domain := h.getDomain tx.objectClass, bulk := false,
     ops := [.updateOne tx.objectId [("$set", .obj [(tx.bag ++ "." ++ tx.key, tx.value)])]] },
   .empty)

/-- `MongoAdapter.txRemoveDoc`: a delete by identifier, returning `{}`. -/
def txRemoveDocRun (h : Hierarchy) (coll : List DocV) (tx : TxRemoveDoc) :
    Submission × TxResult × List DocV :=
  ({ domain := h.getDomain tx.objectClass, bulk := false, ops := [.deleteOne tx.objectId] },
   .empty, deleteOneSem coll tx.objectId)

/-- `MongoAdapter.txUpdateDoc`.  The `$move` branch submits the pull and the
set-and-push as one ordered `bulkWrite`; a `$move` payload without a first
key crashes on `desc.$value` (`none`).  The generic operator branch spreads
the operator map and then assigns its `$set` key; the plain branch wraps the
field map (with `modifiedBy`/`modifiedOn` assigned) in one `$set`.  With
`retrieve` the update runs as `findOneAndUpdate` returning the
post-modification document. -/
def txUpdateDocRun (h : Hierarchy) (applyU : List (String × Value) → DocV → DocV)
    (coll : List DocV) (tx : TxUpdateDoc) : Option (Submission × TxResult) :=
  let domain := h.getDomain tx.objectClass
  if isOperator tx.operations then
    if firstKey tx.operations = some "$move" then
      match moveOps tx.objectId tx.modifiedBy tx.modifiedOn
              (getProp (.obj tx.operations) "$move") with
      | some ops => some ({ domain := domain, bulk := true, ops := ops }, TxResult.bulkRes)
      | none => none
    else
      let upd := setKey tx.operations "$set" (modifiedSet tx.modifiedBy tx.modifiedOn)
      if tx.retrieve then
        some ({ domain := domain, bulk := false,
                ops := [.findOneAndUpdateOp tx.objectId upd true] },
              .withObject (findOneAndUpdateSem applyU coll tx.objectId upd true).1)
      else
        some ({ domain := domain, bulk := false, ops := [.updateOne tx.objectId upd] },
              .updateRes)
  else
    let fields := setKey (setKey tx.operations "modifiedBy" (.str tx.modifiedBy))
                    "modifiedOn" (.num tx.modifiedOn)
    let upd := [("$set", Value.obj fields)]
    if tx.retrieve then
      some ({ domain := domain, bulk := false,
              ops := [.findOneAndUpdateOp tx.objectId upd true] },
            .withObject (findOneAndUpdateSem applyU coll tx.objectId upd true).1)
    else
      some ({ domain := domain, bulk := false, ops := [.updateOne tx.objectId upd] },
            .updateRes)

/-- `MongoAdapter.txMixin`.  In the `$move` branch the source builds
`arr = tx.mixin + '.' + Object.keys(keyval)[0]` and then reads
`keyval[arr]`: the lookup uses the namespaced name against the plain-named
payload, so `desc` is `undefined` and `desc.$value` raises a TypeError
(`none`) unless the payload happens to carry the namespaced key itself. -/
def txMixinRun (h : Hierarchy) (tx : TxMixin) : Option (Submission × TxResult) :=
  let domain := h.getDomain tx.objectClass
  if isOperator tx.attributes then
    if firstKey tx.attributes = some "$move" then
      match mixinMoveOps tx.mixin tx.objectId tx.modifiedBy tx.modifiedOn
              (getProp (.obj tx.attributes) "$move") with
      | some ops => some ({ domain := domain, bulk := true, ops := ops }, TxResult.bulkRes)
      | none => none
    else
      some ({ domain := domain, bulk := false,
              ops := [.updateOne tx.objectId
                (setKey (translateMixinAttrs tx.mixin tx.attributes) "$set"
                  (modifiedSet tx.modifiedBy tx.modifiedOn))] },
            .updateRes)
  else
    let fields := setKey (setKey (translateMixinAttrs tx.mixin tx.attributes)
                    "modifiedBy" (.str tx.modifiedBy)) "modifiedOn" (.num tx.modifiedOn)
    some ({ domain := domain, bulk := false,
            ops := [.updateOne tx.objectId [("$set", Value.obj fields)]] },
          .updateRes)

/-! ## Mongo `$set` application and `$exists` matching (modelled store) -/

/-- Models Mongo's `$set` along one dotted path: intermediate missing fields
create embedded documents; an intermediate non-document is a store error
(`none`). -/
def setPath : Value → List String → Value → Option Value
  | _, [], v => some v
  | .obj kvs, k :: rest, v =>
      match rest with
      | [] => some (.obj (setKey kvs k v))
      | _ => (setPath (match getKey kvs k with | some w => w | none => .undefined) rest v).map
               (fun sub => .obj (setKey kvs k sub))
  | .undefined, k :: rest, v =>
      match rest with
      | [] => some (.obj [(k, v)])
      | _ => (setPath .undefined rest v).map (fun sub => .obj [(k, sub)])
  | _, _ :: _, _ => none

/-- Applies a `$set` clause entry by entry, in key order. -/
def applySet : List (String × Value) → DocV → Option DocV
  | [], doc => some doc
  | (k, v) :: rest, doc =>
      match setPath (.obj doc) (pathOf k) v with
      | some (.obj kvs) => applySet rest kvs
      | _ => none

/-- Models Mongo's `{ field: { $exists: true } }` test on a dotted path
(array traversal is not modelled; no claim involves it). -/
def pathExists (v : Value) : List String → Bool
  | [] => true
  | k :: rest =>
      match v with
      | .obj kvs =>
          match getKey kvs k with
          | some w => pathExists w rest
          | none => false
      | _ => false

/-- The facet-presence (key-exists) test for a mixin class on a document. -/
def facetPresent (doc : DocV) (clazz : String) : Bool :=
  pathExists (.obj doc) (pathOf clazz)

/-! ## Concrete fixtures (used by witnesses and counterexamples) -/

/-- A small concrete Domain Router: storage class `C` with descendants
`C`, `D1`, `D2`; the mixin `mixin:M` is stored under base class `C`;
`class:User` lives in the reserved model domain, everything else in
`objects`. -/
def hierC : Hierarchy where
  getBaseClass := fun c => if c = "mixin:M" then "C" else c
  getDescendants := fun _ => ["C", "D1", "D2"]
  getDomain := fun c => if c = "class:User" then DOMAIN_MODEL else "objects"

def putBagTx : TxPutBag :=
  ⟨"C", "d1", "bag1", "k1", Value.num 5⟩

def removeTx : TxRemoveDoc :=
  ⟨"C", "d1"⟩

def updatePlainTx : TxUpdateDoc :=
  ⟨"C", "d1", "u1", 7, [("x", Value.num 1)], false⟩

def updateRetrieveTx : TxUpdateDoc :=
  ⟨"C", "d1", "u1", 7, [("x", Value.num 1)], true⟩

def mixinMoveTx : TxMixin :=
  ⟨"C", "d1", "mixin:M", "u1", 7,
   [("$move", Value.obj [("states", Value.obj [("$value", Value.str "s1"),
                                               ("$position", Value.num 0)])])]⟩

def mixinEmptyTx : TxMixin :=
  ⟨"C", "d1", "mixin:M", "u1", 7, []⟩

def collOne : List DocV :=
  [[("_id", Value.str "d1"), ("x", Value.num 0)]]

def lookupsFx : List (String × String) :=
  [("owner", "class:User"), ("proj", "C")]

def rowFx : DocV :=
  [("_id", Value.str "d1"), ("owner", Value.str "u9"), ("proj", Value.str "p1"),
   ("proj_lookup", Value.arr [Value.obj [("_id", Value.str "p1")]])]

/-- The identity update application: a store semantics instance used by
witnesses (theorems quantify over the store's update semantics). -/
def applyUId : List (String × Value) → DocV → DocV := fun _ d => d

/-- A concrete `$move` payload: move value `B` of field `items` to position 0. -/
def moveVal : Value :=
  Value.obj [("items", Value.obj [("$value", Value.str "B"), ("$position", Value.num 0)])]

/-- An extra operator entry after `$move`, ignored by the dispatch. -/
def extraOp : List (String × Value) := [("$set", Value.obj [])]

/-- A concrete model cache: a stand-in `getObject` used by witnesses
(theorems quantify over the model cache). -/
def modelDbFx : Value → Value := fun v => Value.obj [("_id", v)]

/-! ## Association-list and string lemmas -/

theorem getKey_append_of_none {α : Type} {l₁ : List (String × α)} {key : String}
    (l₂ : List (String × α)) (h : getKey l₁ key = none) :
    getKey (l₁ ++ l₂) key = getKey l₂ key := by
  induction l₁ with
  | nil => rfl
  | cons p rest ih =>
      by_cases hk : p.1 = key
      · simp [getKey, hk] at h
      · simp only [getKey, hk, if_false, List.cons_append] at h ⊢
        exact ih h

theorem getKey_mapSet_same {α : Type} (l : List (String × α)) (key : String) (v : α) :
    getKey (l.map (fun p => if p.1 = key then (p.1, v) else p)) key =
      (getKey l key).map (fun _ => v) := by
  induction l with
  | nil => rfl
  | cons p rest ih =>
      by_cases hk : p.1 = key
      · simp [getKey, hk]
      · simp [getKey, hk, ih]

theorem getKey_mapSet_diff {α : Type} (l : List (String × α)) {key key' : String} (v : α)
    (h : key' ≠ key) :
    getKey (l.map (fun p => if p.1 = key then (p.1, v) else p)) key' = getKey l key' := by
  have hkk : ¬key = key' := fun hc => h hc.symm
  induction l with
  | nil => rfl
  | cons p rest ih =>
      by_cases hk : p.1 = key
      · have hne : ¬p.1 = key' := fun hc => h (hc ▸ hk ▸ rfl)
        simp [getKey, hk, hne, hkk, ih]
      · by_cases hk' : p.1 = key'
        · simp [getKey, hk, hk', h]
        · simp [getKey, hk, hk', ih]

theorem getKey_setKey_same {α : Type} (l : List (String × α)) (key : String) (v : α) :
    getKey (setKey l key v) key = some v := by
  unfold setKey
  by_cases hh : hasKey l key
  · rw [if_pos hh, getKey_mapSet_same]
    unfold hasKey at hh
    cases hgk : getKey l key with
    | none => rw [hgk] at hh; simp at hh
    | some w => simp
  · rw [if_neg hh]
    unfold hasKey at hh
    cases hgk : getKey l key with
    | none => rw [getKey_append_of_none _ hgk]; simp [getKey]
    | some w => rw [hgk] at hh; simp at hh

theorem getKey_setKey_diff {α : Type} (l : List (String × α)) {key key' : String} (v : α)
    (h : key' ≠ key) : getKey (setKey l key v) key' = getKey l key' := by
  unfold setKey
  by_cases hh : hasKey l key
  · rw [if_pos hh, getKey_mapSet_diff l v h]
  · rw [if_neg hh]
    have hkk : ¬key = key' := fun hc => h hc.symm
    induction l with
    | nil => simp [getKey, hkk]
    | cons p rest ih =>
        unfold hasKey at hh ih
        by_cases hk : p.1 = key
        · simp [getKey, hk] at hh
        · by_cases hk' : p.1 = key'
          · simp [getKey, hk']
          · simp only [getKey, hk, hk', if_false, List.cons_append] at hh ⊢
            exact ih hh

theorem splitChar_no_sep (sep : Char) (l : List Char) (h : sep ∉ l) :
    splitChar sep l = [l] := by
  induction l with
  | nil => rfl
  | cons c cs ih =>
      have hc : ¬c = sep := fun hc => h (hc ▸ List.mem_cons_self c cs)
      have hcs : sep ∉ cs := fun hm => h (List.mem_cons_of_mem c hm)
      simp [splitChar, hc, ih hcs]

theorem splitChar_append (sep : Char) (l r : List Char) (h : sep ∉ l) :
    splitChar sep (l ++ sep :: r) = l :: splitChar sep r := by
  induction l with
  | nil => simp [splitChar]
  | cons c cs ih =>
      have hc : ¬c = sep := fun hc => h (hc ▸ List.mem_cons_self c cs)
      have hcs : sep ∉ cs := fun hm => h (List.mem_cons_of_mem c hm)
      simp [splitChar, hc, ih hcs]

theorem string_data_append (a b : String) : (a ++ b).data = a.data ++ b.data := by
  cases a; cases b; rfl

theorem string_mk_data (s : String) : String.mk s.data = s := rfl

theorem pathOf_no_dot (s : String) (h : '.' ∉ s.data) : pathOf s = [s] := by
  unfold pathOf
  rw [splitChar_no_sep _ _ h]
  simp [string_mk_data]

/-! ## Delete-one lemmas -/

theorem countMatches_zero_delete (coll : List DocV) (id : String)
    (h : countMatches coll id = 0) : deleteOneSem coll id = coll := by
  induction coll with
  | nil => rfl
  | cons d rest ih =>
      by_cases hd : idMatches d id
      · simp [countMatches, hd] at h
      · simp [countMatches, hd] at h
        simp [deleteOneSem, hd, ih h]

theorem countMatches_delete_zero (coll : List DocV) (id : String)
    (h : countMatches coll id ≤ 1) : countMatches (deleteOneSem coll id) id = 0 := by
  induction coll with
  | nil => rfl
  | cons d rest ih =>
      by_cases hd : idMatches d id
      · simp [countMatches, hd] at h
        simp [deleteOneSem, hd]
        omega
      · simp [countMatches, hd] at h
        simp [deleteOneSem, countMatches, hd, ih h]

theorem deleteOneSem_idem (coll : List DocV) (id : String)
    (h : countMatches coll id ≤ 1) :
    deleteOneSem (deleteOneSem coll id) id = deleteOneSem coll id :=
  countMatches_zero_delete _ _ (countMatches_delete_zero coll id h)

/-! ## Claim theorems -/

/-- C8 (confirmed): a RemoveDoc issues a delete by identifier and reports
success (`{}`) whatever the collection contains; under the store's
unique-`_id` guarantee (at most one match), running the same RemoveDoc a
second time also reports success and leaves the collection unchanged. -/
theorem claim8_remove_idempotent (h : Hierarchy) (coll : List DocV) (tx : TxRemoveDoc)
    (hu : countMatches coll tx.objectId ≤ 1) :
    (txRemoveDocRun h coll tx).1.ops = [WriteOp.deleteOne tx.objectId] ∧
    (txRemoveDocRun h coll tx).2.1 = TxResult.empty ∧
    (txRemoveDocRun h (txRemoveDocRun h coll tx).2.2 tx).2.1 = TxResult.empty ∧
    (txRemoveDocRun h (txRemoveDocRun h coll tx).2.2 tx).2.2 = (txRemoveDocRun h coll tx).2.2 := by
  refine ⟨rfl, rfl, rfl, ?_⟩
  exact deleteOneSem_idem coll tx.objectId hu

theorem claim8_witness :
    (txRemoveDocRun hierC collOne removeTx).2.1 = TxResult.empty ∧
    (txRemoveDocRun hierC (txRemoveDocRun hierC collOne removeTx).2.2 removeTx).2.2 =
      (txRemoveDocRun hierC collOne removeTx).2.2 :=
  ⟨(claim8_remove_idempotent hierC collOne removeTx (by decide)).2.1,
   (claim8_remove_idempotent hierC collOne removeTx (by decide)).2.2.2⟩

/-- C9 (confirmed): when the requested class is a mixin (its base storage
class differs from itself), the translated filter requires `$exists: true`
on the facet key, in addition to a polymorphic `$in` class constraint. -/
theorem claim9_mixin_exists_filter (h : Hierarchy) (clazz : String)
    (query t : List (String × Value)) (hmx : h.getBaseClass clazz ≠ clazz)
    (hcl : clazz ≠ "_class") (ht : translateQuery h clazz query = some t) :
    getKey t clazz = some (Value.obj [("$exists", Value.bool true)]) ∧
    hasIn (getKey t "_class") = true := by
  unfold translateQuery at ht
  cases htf : translateFields query with
  | none => rw [htf] at ht; cases ht
  | some translated =>
      rw [htf] at ht
      injection ht with ht
      subst ht
      unfold mixinStep
      rw [if_neg hmx]
      refine ⟨getKey_setKey_same .., ?_⟩
      rw [getKey_setKey_diff _ _ (fun hc : "_class" = clazz => hcl hc.symm)]
      unfold classStep
      by_cases hin : hasIn (getKey translated "_class")
      · rw [if_pos hin]; exact hin
      · rw [if_neg hin, getKey_setKey_same]
        simp [hasIn, hasKey, classesFilter, getKey]

theorem claim9_witness :
    getKey [("_class", classesFilter ["C", "D1", "D2"]),
            ("mixin:M", Value.obj [("$exists", Value.bool true)])] "mixin:M" =
      some (Value.obj [("$exists", Value.bool true)]) ∧
    hasIn (getKey [("_class", classesFilter ["C", "D1", "D2"]),
                   ("mixin:M", Value.obj [("$exists", Value.bool true)])] "_class") = true :=
  claim9_mixin_exists_filter hierC "mixin:M" []
    [("_class", classesFilter ["C", "D1", "D2"]),
     ("mixin:M", Value.obj [("$exists", Value.bool true)])]
    (by decide) (by decide) rfl

/-- C1 counterexample: with the caller filter `{ _class: "D1" }` — a class
constraint by plain equality — the translator does not leave the constraint
unchanged: it replaces it by the descendant-set `$in` constraint. -/
theorem claim1_counterexample :
    translateQuery hierC "C" [("_class", Value.str "D1")] =
      some [("_class", classesFilter ["C", "D1", "D2"])] ∧
    getKey [("_class", classesFilter ["C", "D1", "D2"])] "_class" ≠ some (Value.str "D1") :=
  ⟨rfl, fun hc => Value.noConfusion (Option.some.inj hc)⟩

/-- C1 (corrected): the translated filter constrains `_class` to the full
descendant set of the requested class's base storage class whenever the
caller's (field-translated) class constraint is not an object carrying an
`$in` key; only an `$in`-carrying class constraint is left unchanged — a
plain-equality constraint is replaced, contrary to the claim. -/
theorem claim1_class_constraint (h : Hierarchy) (clazz : String)
    (query translated t : List (String × Value)) (hcl : clazz ≠ "_class")
    (htf : translateFields query = some translated)
    (ht : translateQuery h clazz query = some t) :
    (hasIn (getKey translated "_class") = true →
      getKey t "_class" = getKey translated "_class") ∧
    (hasIn (getKey translated "_class") = false →
      getKey t "_class" = some (classesFilter (h.getDescendants (h.getBaseClass clazz)))) := by
  unfold translateQuery at ht
  rw [htf] at ht
  injection ht with ht
  subst ht
  have hm : ∀ l, getKey (mixinStep h clazz l) "_class" = getKey l "_class" := by
    intro l
    unfold mixinStep
    by_cases hb : h.getBaseClass clazz = clazz
    · rw [if_pos hb]
    · rw [if_neg hb, getKey_setKey_diff _ _ (fun hc : "_class" = clazz => hcl hc.symm)]
  constructor
  · intro hin
    rw [hm]
    unfold classStep
    rw [if_pos hin]
  · intro hin
    rw [hm]
    unfold classStep
    rw [if_neg (by simp [hin]), getKey_setKey_same]

theorem claim1_witness :
    getKey [("x", Value.num 1), ("_class", classesFilter ["C", "D1", "D2"])] "_class" =
      some (classesFilter ["C", "D1", "D2"]) :=
  (claim1_class_constraint hierC "C" [("x", Value.num 1)] [("x", Value.num 1)]
      [("x", Value.num 1), ("_class", classesFilter ["C", "D1", "D2"])]
      (by decide) rfl rfl).2 rfl

/-- C3 (code bug): a MixinUpdate carrying the list-reposition operator on a
plain-named field crashes instead of submitting the pull/push batch: the
source computes `arr = tx.mixin + '.' + Object.keys(keyval)[0]` and then
reads `keyval[arr]`, indexing the plain-keyed payload with the namespaced
name, so `desc` is `undefined` and `desc.$value` raises a TypeError. -/
theorem claim3_mixin_move_crashes : txMixinRun hierC mixinMoveTx = none := rfl

/-- C4 counterexample: an object-valued filter field that is not a sole-key
pattern object (here `{ $like: "a", $gt: 0 }`) does not pass through
unchanged: the translator dispatches on the first key only, rewrites it to
the regex object and silently drops `$gt`. -/
theorem claim4_counterexample :
    translateField (Value.obj [("$like", Value.str "a"), ("$gt", Value.num 0)]) =
      some (Value.obj [("$regex", Value.str "^a$"), ("$options", Value.str "i")]) ∧
    getKey [("$regex", Value.str "^a$"), ("$options", Value.str "i")] "$gt" = none ∧
    getKey [("$like", Value.str "a"), ("$gt", Value.num 0)] "$gt" = some (Value.num 0) :=
  ⟨rfl, rfl, rfl⟩

/-- C4 (corrected): a filter field whose value is an object whose FIRST key
is `$like` (sole-key objects included) is rewritten to the anchored
case-insensitive regex with `%` turned into a match-anything wildcard;
object fields whose first key is not `$like`, and non-object fields, pass
through unchanged (remaining keys of a first-key-`$like` object are
dropped).  In particular `ab%cd` matches `abXYZcd` and not `abXYZcde`. -/
theorem claim4_like_translation :
    (∀ (pat : String) (rest : List (String × Value)),
        translateField (.obj (("$like", Value.str pat) :: rest)) =
          some (.obj [("$regex", .str (likeRegexStr pat)), ("$options", .str "i")])) ∧
    (∀ kvs : List (String × Value), firstKey kvs ≠ some "$like" →
        translateField (.obj kvs) = some (.obj kvs)) ∧
    (∀ v : Value, (∀ kvs, v ≠ .obj kvs) → translateField v = some v) ∧
    likeAccepts "ab%cd" "abXYZcd" = true ∧
    likeAccepts "ab%cd" "abXYZcde" = false := by
  refine ⟨?_, ?_, ?_, by decide, by decide⟩
  · intro pat rest
    simp [translateField, firstKey, getKey]
  · intro kvs hk
    cases kvs with
    | nil => rfl
    | cons p rest =>
        simp only [firstKey, Ne, Option.some.injEq] at hk
        simp [translateField, firstKey, hk]
  · intro v hv
    cases v with
    | obj kvs => exact absurd rfl (hv kvs)
    | str s => rfl
    | num n => rfl
    | bool b => rfl
    | null => rfl
    | undefined => rfl
    | arr l => rfl

theorem claim4_witness :
    translateField (Value.obj [("$like", Value.str "ab%cd")]) =
      some (Value.obj [("$regex", Value.str (likeRegexStr "ab%cd")),
                       ("$options", Value.str "i")]) ∧
    translateField (Value.obj [("x", Value.num 3)]) = some (Value.obj [("x", Value.num 3)]) ∧
    translateField (Value.str "plain") = some (Value.str "plain") :=
  ⟨claim4_like_translation.1 "ab%cd" [],
   claim4_like_translation.2.1 [("x", Value.num 3)] (by decide),
   claim4_like_translation.2.2.1 (Value.str "plain") (fun kvs hc => Value.noConfusion hc)⟩

theorem moveOps_setsModified (id mb : String) (mo : Int) (kv : Value) (ops : List WriteOp)
    (hm : moveOps id mb mo kv = some ops) : ∃ op ∈ ops, setsModified op mb mo := by
  unfold moveOps at hm
  split at hm
  · injection hm with hm
    subst hm
    refine ⟨_, List.mem_cons_of_mem _ (List.mem_singleton.mpr rfl), ?_⟩
    exact ⟨_, _, rfl, rfl, rfl, rfl⟩
  · cases hm

theorem mixinMoveOps_setsModified (mixin id mb : String) (mo : Int) (kv : Value)
    (ops : List WriteOp) (hm : mixinMoveOps mixin id mb mo kv = some ops) :
    ∃ op ∈ ops, setsModified op mb mo := by
  unfold mixinMoveOps at hm
  split at hm
  · split at hm
    · injection hm with hm
      subst hm
      refine ⟨_, List.mem_cons_of_mem _ (List.mem_singleton.mpr rfl), ?_⟩
      exact ⟨_, _, rfl, rfl, rfl, rfl⟩
    · cases hm
  · cases hm

/-- C2 counterexample: a PutBag write carries no `modifiedBy`/`modifiedOn`
at all — its single `$set` clause contains only the bag field — so the
claim fails for PutBag. -/
theorem claim2_counterexample :
    (txPutBagRun hierC putBagTx).1.ops =
      [WriteOp.updateOne "d1" [("$set", Value.obj [("bag1.k1", Value.num 5)])]] ∧
    getKey [("bag1.k1", Value.num 5)] "modifiedBy" = none ∧
    getKey [("bag1.k1", Value.num 5)] "modifiedOn" = none :=
  ⟨rfl, rfl, rfl⟩

/-- C2 (corrected): every submission issued for an UpdateDoc or a
MixinUpdate contains a write whose `$set` clause binds `modifiedBy` and
`modifiedOn` to the transaction's values (for the two-step reposition
batch, its second operation does); PutBag, however, writes only the bag
field and does not set them. -/
theorem claim2_modified_fields (h : Hierarchy) (applyU : List (String × Value) → DocV → DocV)
    (coll : List DocV) (utx : TxUpdateDoc) (mtx : TxMixin) :
    submissionSetsModified (txUpdateDocRun h applyU coll utx) utx.modifiedBy utx.modifiedOn ∧
    submissionSetsModified (txMixinRun h mtx) mtx.modifiedBy mtx.modifiedOn := by
  constructor
  · by_cases hop : isOperator utx.operations
    · by_cases hmv : firstKey utx.operations = some "$move"
      · cases hmo : moveOps utx.objectId utx.modifiedBy utx.modifiedOn
            (getProp (Value.obj utx.operations) "$move") with
        | none => simp [submissionSetsModified, txUpdateDocRun, hop, hmv, hmo]
        | some ops =>
            simp only [txUpdateDocRun, hop, hmv, hmo, if_true, if_pos]
            simp only [submissionSetsModified]
            exact moveOps_setsModified _ _ _ _ _ hmo
      · by_cases hr : utx.retrieve <;>
        · simp only [txUpdateDocRun, hop, hmv, hr, if_true, if_false, ite_true, ite_false,
            Bool.false_eq_true, submissionSetsModified]
          refine ⟨_, List.mem_singleton.mpr rfl, _, _, rfl,
            getKey_setKey_same utx.operations "$set" (modifiedSet utx.modifiedBy utx.modifiedOn),
            rfl, rfl⟩
    · by_cases hr : utx.retrieve <;>
      · simp only [txUpdateDocRun, hop, hr, if_true, if_false, ite_true, ite_false,
          Bool.false_eq_true, submissionSetsModified]
        refine ⟨_, List.mem_singleton.mpr rfl, _,
          setKey (setKey utx.operations "modifiedBy" (Value.str utx.modifiedBy))
            "modifiedOn" (Value.num utx.modifiedOn), rfl, rfl, ?_, ?_⟩
        · rw [getKey_setKey_diff _ _ (by decide : ("modifiedBy" : String) ≠ "modifiedOn"),
            getKey_setKey_same]
        · rw [getKey_setKey_same]
  · by_cases hop : isOperator mtx.attributes
    · by_cases hmv : firstKey mtx.attributes = some "$move"
      · cases hmo : mixinMoveOps mtx.mixin mtx.objectId mtx.modifiedBy mtx.modifiedOn
            (getProp (Value.obj mtx.attributes) "$move") with
        | none => simp [submissionSetsModified, txMixinRun, hop, hmv, hmo]
        | some ops =>
            simp only [txMixinRun, hop, hmv, hmo, if_true, if_pos]
            simp only [submissionSetsModified]
            exact mixinMoveOps_setsModified _ _ _ _ _ _ hmo
      · simp only [txMixinRun, hop, hmv, if_true, ite_true, submissionSetsModified]
        refine ⟨_, List.mem_singleton.mpr rfl, _, _, rfl,
          getKey_setKey_same (translateMixinAttrs mtx.mixin mtx.attributes) "$set"
            (modifiedSet mtx.modifiedBy mtx.modifiedOn), rfl, rfl⟩
    · simp only [txMixinRun, hop, if_false, Bool.false_eq_true, ite_false,
        submissionSetsModified]
      refine ⟨_, List.mem_singleton.mpr rfl, _,
        setKey (setKey (translateMixinAttrs mtx.mixin mtx.attributes)
          "modifiedBy" (Value.str mtx.modifiedBy)) "modifiedOn" (Value.num mtx.modifiedOn),
        rfl, rfl, ?_, ?_⟩
      · rw [getKey_setKey_diff _ _ (by decide : ("modifiedBy" : String) ≠ "modifiedOn"),
          getKey_setKey_same]
      · rw [getKey_setKey_same]

theorem claim2_witness :
    ∃ op ∈ [WriteOp.updateOne "d1"
        [("$set", Value.obj [("x", Value.num 1), ("modifiedBy", Value.str "u1"),
                             ("modifiedOn", Value.num 7)])]],
      setsModified op "u1" 7 :=
  (claim2_modified_fields hierC applyUId [] updatePlainTx mixinEmptyTx).1

/-- C5 (confirmed): a non-reposition UpdateDoc with the retrieve flag runs
as a single fetch-and-update requesting the post-modification image
(`returnDocument: 'after'`); the result carries the post-update document,
and a missing match yields an absent document, not an error. -/
theorem claim5_retrieve_post_image (h : Hierarchy) (applyU : List (String × Value) → DocV → DocV)
    (coll : List DocV) (tx : TxUpdateDoc) (hr : tx.retrieve = true)
    (hnm : ¬(isOperator tx.operations = true ∧ firstKey tx.operations = some "$move")) :
    ∃ upd : List (String × Value),
      txUpdateDocRun h applyU coll tx =
        some ({ domain := h.getDomain tx.objectClass, bulk := false,
                ops := [WriteOp.findOneAndUpdateOp tx.objectId upd true] },
              TxResult.withObject (findOneAndUpdateSem applyU coll tx.objectId upd true).1) ∧
      (findDoc coll tx.objectId = none →
        (findOneAndUpdateSem applyU coll tx.objectId upd true).1 = none) ∧
      (∀ d, findDoc coll tx.objectId = some d →
        (findOneAndUpdateSem applyU coll tx.objectId upd true).1 = some (applyU upd d)) := by
  by_cases hop : isOperator tx.operations
  · have hmv : ¬firstKey tx.operations = some "$move" := fun hc => hnm ⟨hop, hc⟩
    refine ⟨setKey tx.operations "$set" (modifiedSet tx.modifiedBy tx.modifiedOn), ?_, ?_, ?_⟩
    · simp [txUpdateDocRun, hop, hmv, hr]
    · intro hf; simp [findOneAndUpdateSem, hf]
    · intro d hf; simp [findOneAndUpdateSem, hf]
  · refine ⟨[("$set", Value.obj (setKey (setKey tx.operations "modifiedBy"
        (Value.str tx.modifiedBy)) "modifiedOn" (Value.num tx.modifiedOn)))], ?_, ?_, ?_⟩
    · simp [txUpdateDocRun, hop, hr]
    · intro hf; simp [findOneAndUpdateSem, hf]
    · intro d hf; simp [findOneAndUpdateSem, hf]

theorem claim5_witness :
    ∃ upd : List (String × Value),
      txUpdateDocRun hierC applyUId collOne updateRetrieveTx =
        some ({ domain := hierC.getDomain updateRetrieveTx.objectClass, bulk := false,
                ops := [WriteOp.findOneAndUpdateOp updateRetrieveTx.objectId upd true] },
              TxResult.withObject
                (findOneAndUpdateSem applyUId collOne updateRetrieveTx.objectId upd true).1) ∧
      (findDoc collOne updateRetrieveTx.objectId = none →
        (findOneAndUpdateSem applyUId collOne updateRetrieveTx.objectId upd true).1 = none) ∧
      (∀ d, findDoc collOne updateRetrieveTx.objectId = some d →
        (findOneAndUpdateSem applyUId collOne updateRetrieveTx.objectId upd true).1 =
          some (applyUId upd d)) :=
  claim5_retrieve_post_image hierC applyUId collOne updateRetrieveTx rfl (by decide)

/-- C10 (confirmed): when an operator-map payload's first key is `$move`,
both the UpdateDoc and the MixinUpdate handler dispatch on that first key
alone — the result is the same as if the payload contained only the
`$move` entry, so any further top-level keys are ignored and never
written. -/
theorem claim10_first_key_dispatch (h : Hierarchy)
    (applyU : List (String × Value) → DocV → DocV) (coll : List DocV)
    (cls id mixin mb : String) (mo : Int) (ret : Bool)
    (v : Value) (rest : List (String × Value))
    (hop : isOperator (("$move", v) :: rest) = true) :
    txUpdateDocRun h applyU coll ⟨cls, id, mb, mo, ("$move", v) :: rest, ret⟩ =
      txUpdateDocRun h applyU coll ⟨cls, id, mb, mo, [("$move", v)], ret⟩ ∧
    txMixinRun h ⟨cls, id, mixin, mb, mo, ("$move", v) :: rest⟩ =
      txMixinRun h ⟨cls, id, mixin, mb, mo, [("$move", v)]⟩ := by
  have hop1 : isOperator [("$move", v)] = true := rfl
  have hget : getProp (Value.obj (("$move", v) :: rest)) "$move" = v := by
    simp [getProp, getKey]
  have hget1 : getProp (Value.obj [("$move", v)]) "$move" = v := by
    simp [getProp, getKey]
  constructor
  · simp [txUpdateDocRun, hop, hop1, firstKey, hget, hget1]
  · simp [txMixinRun, hop, hop1, firstKey, hget, hget1]

theorem claim10_witness :
    txUpdateDocRun hierC applyUId [] ⟨"C", "d1", "u1", 7, ("$move", moveVal) :: extraOp, false⟩ =
      txUpdateDocRun hierC applyUId [] ⟨"C", "d1", "u1", 7, [("$move", moveVal)], false⟩ ∧
    txMixinRun hierC ⟨"C", "d1", "mixin:M", "u1", 7, ("$move", moveVal) :: extraOp⟩ =
      txMixinRun hierC ⟨"C", "d1", "mixin:M", "u1", 7, [("$move", moveVal)]⟩ :=
  claim10_first_key_dispatch hierC applyUId [] "C" "d1" "mixin:M" "u1" 7 false moveVal extraOp
    (by decide)

/-! ## Path and placeholder lemmas (for C6) -/

theorem dot_mem_marker (m : String) : '.' ∈ (m ++ "." ++ "__mixin").data := by
  rw [string_data_append, string_data_append]
  exact List.mem_append.mpr (Or.inl (List.mem_append.mpr (Or.inr (by decide))))

theorem marker_ne_of_no_dot (m s : String) (hs : '.' ∉ s.data) :
    (m ++ "." ++ "__mixin") ≠ s :=
  fun h => hs (h ▸ dot_mem_marker m)

theorem pathOf_marker (m : String) (h : '.' ∉ m.data) :
    pathOf (m ++ "." ++ "__mixin") = [m, "__mixin"] := by
  unfold pathOf
  have hd : (m ++ "." ++ "__mixin").data = m.data ++ '.' :: "__mixin".data := by
    rw [string_data_append, string_data_append, List.append_assoc]
    rfl
  rw [hd, splitChar_append _ _ _ h, splitChar_no_sep _ _ (by decide)]
  simp [string_mk_data]

theorem pathExists_single (kvs : List (String × Value)) (a : String)
    (h : (getKey kvs a).isSome = true) : pathExists (Value.obj kvs) [a] = true := by
  cases hk : getKey kvs a with
  | none => rw [hk] at h; cases h
  | some v => simp [pathExists, hk]

theorem hasKey_setKey_of_hasKey (l : List (String × Value)) (k a : String) (v : Value)
    (h : (getKey l a).isSome = true) : (getKey (setKey l k v) a).isSome = true := by
  by_cases hk : a = k
  · subst hk
    rw [getKey_setKey_same]
    rfl
  · rw [getKey_setKey_diff _ _ hk]
    exact h

theorem setPath_two_isSome (doc : List (String × Value)) (a b : String) (v out : Value)
    (h : setPath (Value.obj doc) [a, b] v = some out) :
    ∃ kvs, out = Value.obj kvs ∧ (getKey kvs a).isSome = true := by
  unfold setPath at h
  cases hi : setPath (match getKey doc a with | some w => w | none => Value.undefined) [b] v with
  | none => rw [hi] at h; cases h
  | some sub =>
      rw [hi] at h
      simp only [Option.map_some'] at h
      injection h with h
      exact ⟨setKey doc a sub, h.symm, by rw [getKey_setKey_same]; rfl⟩

/-- C6 (confirmed): a MixinUpdate with an empty plain attribute map still
writes the placeholder marker field `<mixin>.__mixin` (one field under the
mixin key), and applying that `$set` to any document makes the
facet-presence (key-exists) test for the mixin class succeed. -/
theorem claim6_placeholder_marker (h : Hierarchy) (tx : TxMixin)
    (hempty : tx.attributes = []) (hdot : '.' ∉ tx.mixin.data) :
    txMixinRun h tx =
      some ({ domain := h.getDomain tx.objectClass, bulk := false,
              ops := [WriteOp.updateOne tx.objectId
                [("$set", Value.obj
                   [(tx.mixin ++ "." ++ "__mixin", Value.str "true"),
                    ("modifiedBy", Value.str tx.modifiedBy),
                    ("modifiedOn", Value.num tx.modifiedOn)])]] },
            TxResult.updateRes) ∧
    (∀ doc doc',
      applySet [(tx.mixin ++ "." ++ "__mixin", Value.str "true"),
                ("modifiedBy", Value.str tx.modifiedBy),
                ("modifiedOn", Value.num tx.modifiedOn)] doc = some doc' →
      facetPresent doc' tx.mixin = true) := by
  have hP1 : (tx.mixin ++ "." ++ "__mixin") ≠ "modifiedBy" :=
    marker_ne_of_no_dot _ _ (by decide)
  have hP2 : (tx.mixin ++ "." ++ "__mixin") ≠ "modifiedOn" :=
    marker_ne_of_no_dot _ _ (by decide)
  constructor
  · simp only [txMixinRun, hempty, isOperator, List.isEmpty_nil, Bool.not_true,
      Bool.false_and, Bool.false_eq_true, if_false, ite_false]
    simp [translateMixinAttrs, setKey, hasKey, getKey, hP1, hP2]
  · intro doc doc' ha
    unfold applySet at ha
    rw [pathOf_marker _ hdot] at ha
    cases hs1 : setPath (Value.obj doc) [tx.mixin, "__mixin"] (Value.str "true") with
    | none => rw [hs1] at ha; cases ha
    | some out1 =>
        rw [hs1] at ha
        obtain ⟨kvs1, hout1, hk1⟩ := setPath_two_isSome doc _ _ _ _ hs1
        subst hout1
        unfold applySet at ha
        rw [pathOf_no_dot "modifiedBy" (by decide)] at ha
        simp only [setPath] at ha
        unfold applySet at ha
        rw [pathOf_no_dot "modifiedOn" (by decide)] at ha
        simp only [setPath] at ha
        unfold applySet at ha
        injection ha with ha
        subst ha
        unfold facetPresent
        rw [pathOf_no_dot _ hdot]
        exact pathExists_single _ _
          (hasKey_setKey_of_hasKey _ _ _ _ (hasKey_setKey_of_hasKey _ _ _ _ hk1))

theorem claim6_witness :
    txMixinRun hierC mixinEmptyTx =
      some ({ domain := hierC.getDomain mixinEmptyTx.objectClass, bulk := false,
              ops := [WriteOp.updateOne mixinEmptyTx.objectId
                [("$set", Value.obj
                   [(mixinEmptyTx.mixin ++ "." ++ "__mixin", Value.str "true"),
                    ("modifiedBy", Value.str mixinEmptyTx.modifiedBy),
                    ("modifiedOn", Value.num mixinEmptyTx.modifiedOn)])]] },
            TxResult.updateRes) ∧
    (∀ doc doc',
      applySet [(mixinEmptyTx.mixin ++ "." ++ "__mixin", Value.str "true"),
                ("modifiedBy", Value.str mixinEmptyTx.modifiedBy),
                ("modifiedOn", Value.num mixinEmptyTx.modifiedOn)] doc = some doc' →
      facetPresent doc' mixinEmptyTx.mixin = true) :=
  claim6_placeholder_marker hierC mixinEmptyTx rfl (by decide)

/-! ## Lookup lemmas (for C7) -/

theorem getKey_lookupEntries (h : Hierarchy) (modelDb : Value → Value)
    (lookups : List (String × String)) (row : DocV) (key cl : String)
    (hnd : (lookups.map Prod.fst).Nodup) (hmem : (key, cl) ∈ lookups) :
    getKey (lookupEntries h modelDb lookups row) key =
      some (if h.getDomain cl = DOMAIN_MODEL then modelDb (getProp (Value.obj row) key)
            else firstElem (getProp (Value.obj row) (key ++ "_lookup"))) := by
  induction lookups with
  | nil => cases hmem
  | cons p rest ih =>
      simp only [List.map_cons, List.nodup_cons] at hnd
      rcases List.mem_cons.mp hmem with heq | hmem'
      · rw [← heq]
        simp [lookupEntries, getKey]
      · have hne : ¬p.1 = key := fun hc => hnd.1 (hc ▸ List.mem_map_of_mem Prod.fst hmem')
        simp only [lookupEntries, List.map_cons, getKey, hne, if_false]
        exact ih hnd.2 hmem'

theorem lookupStages_source (h : Hierarchy) (lookups : List (String × String))
    (st : LookupStage) (hst : st ∈ lookupStages h lookups) :
    ∃ q ∈ lookups, st.localField = q.1 ∧ h.getDomain q.2 ≠ DOMAIN_MODEL := by
  induction lookups with
  | nil => cases hst
  | cons p rest ih =>
      unfold lookupStages at hst
      by_cases hd : h.getDomain p.2 = DOMAIN_MODEL
      · rw [if_pos hd] at hst
        obtain ⟨q, hq, hl, hdq⟩ := ih hst
        exact ⟨q, List.mem_cons_of_mem _ hq, hl, hdq⟩
      · rw [if_neg hd] at hst
        rcases List.mem_cons.mp hst with heq | hst'
        · exact ⟨p, List.mem_cons_self _ _, by rw [heq], hd⟩
        · obtain ⟨q, hq, hl, hdq⟩ := ih hst'
          exact ⟨q, List.mem_cons_of_mem _ hq, hl, hdq⟩

theorem nodup_key_unique (lookups : List (String × String)) (key cl : String)
    (q : String × String) (hnd : (lookups.map Prod.fst).Nodup) (hmem : (key, cl) ∈ lookups)
    (hq : q ∈ lookups) (hkey : q.1 = key) : q = (key, cl) := by
  induction lookups with
  | nil => cases hmem
  | cons p rest ih =>
      simp only [List.map_cons, List.nodup_cons] at hnd
      rcases List.mem_cons.mp hmem with h1 | h1 <;> rcases List.mem_cons.mp hq with h2 | h2
      · rw [h2, ← h1]
      · exfalso
        have hmm : key ∈ rest.map Prod.fst := hkey ▸ List.mem_map_of_mem Prod.fst h2
        have hp1 : p.1 = key := by rw [← h1]
        exact hnd.1 (hp1 ▸ hmm)
      · exfalso
        have hmm : key ∈ rest.map Prod.fst := List.mem_map_of_mem Prod.fst h1
        have hp1 : p.1 = key := h2 ▸ hkey
        exact hnd.1 (hp1 ▸ hmm)
      · exact ih hnd.2 h1 h2

theorem lookupStages_model_absent (h : Hierarchy) (lookups : List (String × String))
    (key cl : String) (hnd : (lookups.map Prod.fst).Nodup) (hmem : (key, cl) ∈ lookups)
    (hm : h.getDomain cl = DOMAIN_MODEL) :
    ∀ st ∈ lookupStages h lookups, st.localField ≠ key := by
  intro st hst hkey
  obtain ⟨q, hq, hl, hd⟩ := lookupStages_source h lookups st hst
  have hqe : q = (key, cl) :=
    nodup_key_unique lookups key cl q hnd hmem hq (hl.symm.trans hkey)
  rw [hqe] at hd
  exact hd hm

/-- C7 (confirmed): the result shaper binds each lookup key, inside the
`$lookup` sub-map attached to the row, to the first element of the joined
array when the target class lives in a non-model domain (an empty join
yields `undefined`, never an error); a model-domain target is resolved
through the model cache by the row's own field value, and no join stage is
issued for it. -/
theorem claim7_lookup_shaping (h : Hierarchy) (modelDb : Value → Value)
    (lookups : List (String × String)) (row : DocV) (key cl : String)
    (hnd : (lookups.map Prod.fst).Nodup) (hmem : (key, cl) ∈ lookups) :
    getProp (Value.obj (shapeRow h modelDb lookups row)) "$lookup" =
      Value.obj (lookupEntries h modelDb lookups row) ∧
    (h.getDomain cl ≠ DOMAIN_MODEL →
      getKey (lookupEntries h modelDb lookups row) key =
        some (firstElem (getProp (Value.obj row) (key ++ "_lookup"))) ∧
      (getProp (Value.obj row) (key ++ "_lookup") = Value.arr [] →
        getKey (lookupEntries h modelDb lookups row) key = some Value.undefined)) ∧
    (h.getDomain cl = DOMAIN_MODEL →
      getKey (lookupEntries h modelDb lookups row) key =
        some (modelDb (getProp (Value.obj row) key)) ∧
      ∀ st ∈ lookupStages h lookups, st.localField ≠ key) := by
  refine ⟨?_, ?_, ?_⟩
  · unfold shapeRow
    simp [getProp, getKey_setKey_same]
  · intro hnm
    have hk := getKey_lookupEntries h modelDb lookups row key cl hnd hmem
    rw [if_neg hnm] at hk
    refine ⟨hk, fun harr => ?_⟩
    rw [hk, harr]
    rfl
  · intro hm
    have hk := getKey_lookupEntries h modelDb lookups row key cl hnd hmem
    rw [if_pos hm] at hk
    exact ⟨hk, lookupStages_model_absent h lookups key cl hnd hmem hm⟩

theorem claim7_witness :
    getProp (Value.obj (shapeRow hierC modelDbFx lookupsFx rowFx)) "$lookup" =
      Value.obj (lookupEntries hierC modelDbFx lookupsFx rowFx) ∧
    (hierC.getDomain "C" ≠ DOMAIN_MODEL →
      getKey (lookupEntries hierC modelDbFx lookupsFx rowFx) "proj" =
        some (firstElem (getProp (Value.obj rowFx) ("proj" ++ "_lookup"))) ∧
      (getProp (Value.obj rowFx) ("proj" ++ "_lookup") = Value.arr [] →
        getKey (lookupEntries hierC modelDbFx lookupsFx rowFx) "proj" = some Value.undefined)) ∧
    (hierC.getDomain "C" = DOMAIN_MODEL →
      getKey (lookupEntries hierC modelDbFx lookupsFx rowFx) "proj" =
        some (modelDbFx (getProp (Value.obj rowFx) "proj")) ∧
      ∀ st ∈ lookupStages hierC lookupsFx, st.localField ≠ "proj") :=
  claim7_lookup_shaping hierC modelDbFx lookupsFx rowFx "proj" "C" (by decide) (by decide)

end MongoStorage
